import Mathlib

/-!
Verification of the attribute-splitting lexer of `proc_nuhound`
(`src/lib.rs` and `src/scanner.rs`).

The lexer splits a raw argument-list text into top-level comma-delimited
attributes, treating bracket pairs, quoted strings and pipes specially.
We embed the Rust code shallowly: the `Scanner` struct becomes a Lean
structure, its methods become pure functions threading the state, and the
recursive region consumers are given an explicit fuel parameter (proved
sufficient where needed).  Rust panics (`unwrap` on `None`, `usize`
underflow / out-of-bounds indexing, missing `HashMap` key, the explicit
`panic!` for a misplaced pipe) are modelled by the `Panic` error type;
fueled functions return `Option (Except Panic _)` where `none` means the
fuel ran out (never the case for the fuel `analyse` supplies).
-/

/-- The ways the Rust lexer can panic (plus nothing else: all other
behaviour is a normal return). -/
inductive Panic where
  /-- `usize` subtraction underflow or slice index out of bounds. -/
  | indexOutOfRange
  /-- `Option::unwrap` called on `None`. -/
  | unwrapNone
  /-- `HashMap` indexing `pairs[&key]` with an absent key. -/
  | keyNotFound
  /-- The explicit `panic!("The pipe character is misplaced. ...")`. -/
  | misplacedPipe
deriving Repr, DecidableEq

/-- `struct Attribute { start, end }` is modelled as a pair of indices;
`struct Scanner` from `src/scanner.rs`.  The Rust `length` field is always
equal to `char_string.len()` (it is set once in `Scanner::new` and the
vector is never mutated), so we use `char_string.length` directly. -/
structure Scanner where
  char_string : List Char
  index : Nat
  attributes : List (Nat × Nat)
  mark : Nat
deriving Repr, DecidableEq

/-- `Scanner::new`. -/
def Scanner.new (cs : List Char) : Scanner :=
  { char_string := cs, index := 0, attributes := [], mark := 0 }

/-- `Scanner::next`: if `index < length`, increment `index` and return the
character at the pre-increment position; otherwise return `None` leaving
the state unchanged. -/
def Scanner.next (s : Scanner) : Option Char × Scanner :=
  if s.index < s.char_string.length then
    (s.char_string.get? s.index, { s with index := s.index + 1 })
  else
    (none, s)

/-- `Scanner::get_current`: `if self.index < self.length { Some(self.char_string[self.index - 1]) } else { None }`.
When `index = 0` (and the input is nonempty) the Rust expression
`self.index - 1` underflows `usize` and the access panics; this is the
`.error .indexOutOfRange` branch. -/
def Scanner.get_current (s : Scanner) : Except Panic (Option Char) :=
  if s.index < s.char_string.length then
    match s.index with
    | 0 => Except.error Panic.indexOutOfRange
    | i + 1 => Except.ok (s.char_string.get? i)
  else
    Except.ok none

/-- `Scanner::save_attribute(rshorten)`: push the span
`(mark, index - rshorten)` and set `mark := index`.  (At every call site
`rshorten ≤ index`, so the `Nat` truncated subtraction agrees with the
Rust `usize` subtraction.) -/
def Scanner.save_attribute (s : Scanner) (rshorten : Nat) : Scanner :=
  { s with
    attributes := s.attributes ++ [(s.mark, s.index - rshorten)]
    mark := s.index }

/-- Rust `char::is_whitespace` (the Unicode `White_Space` property). -/
def rustIsWhitespace (c : Char) : Bool :=
  c = '\t' || c = '\n' || c = Char.ofNat 0x0B ||
  c = Char.ofNat 0x0C || c = '\r' || c = ' ' ||
  c = Char.ofNat 0x85 || c = Char.ofNat 0xA0 || c = Char.ofNat 0x1680 ||
  (0x2000 ≤ c.toNat && c.toNat ≤ 0x200A) ||
  c = Char.ofNat 0x2028 || c = Char.ofNat 0x2029 || c = Char.ofNat 0x202F ||
  c = Char.ofNat 0x205F || c = Char.ofNat 0x3000

/-- Rust `str::trim`: drop leading and trailing whitespace. -/
def rustTrim (cs : List Char) : List Char :=
  ((cs.dropWhile rustIsWhitespace).reverse.dropWhile rustIsWhitespace).reverse

/-- The slice `char_string[a..b]` of a character vector. -/
def sliceStr (cs : List Char) (a b : Nat) : List Char :=
  (cs.take b).drop a

/-- `Scanner::get_string_attributes`: materialize every recorded span,
trimming whitespace. -/
def Scanner.get_string_attributes (s : Scanner) : List (List Char) :=
  s.attributes.map (fun ab => rustTrim (sliceStr s.char_string ab.1 ab.2))

/-- The backward-scanning `while` loop of `Scanner::is_pipe_valid`,
starting at `pointer` and stopping at (not including) `mark`: while
`pointer > mark`, return `true` at the first non-whitespace character,
else decrement.  (Recursion is structural in the pointer; at `0` the
loop guard `pointer > mark` is false, matching the Rust loop.) -/
def pipeLoop (cs : List Char) (mark : Nat) : Nat → Except Panic Bool
  | 0 => Except.ok false
  | p + 1 =>
    if mark < p + 1 then
      match cs.get? (p + 1) with
      | none => Except.error Panic.indexOutOfRange
      | some c =>
        if rustIsWhitespace c then pipeLoop cs mark p
        else Except.ok true
    else Except.ok false

/-- `Scanner::is_pipe_valid`: `let mut pointer = self.index - 1; ...`.
When `index = 0` the `usize` subtraction underflows (never the case in the
program, which calls this right after consuming a pipe). -/
def Scanner.is_pipe_valid (s : Scanner) : Except Panic Bool :=
  match s.index with
  | 0 => Except.error Panic.indexOutOfRange
  | i + 1 => pipeLoop s.char_string s.mark i

/-- `Scanner::is_escaped`: `self.char_string[self.index - 1] == '\\'`.
Note this inspects the character at `index - 1`, which is the character
just returned by `next` — not the one before it. -/
def Scanner.is_escaped (s : Scanner) : Except Panic Bool :=
  if s.index = 0 then
    Except.ok false
  else
    match s.char_string.get? (s.index - 1) with
    | none => Except.error Panic.indexOutOfRange
    | some c => Except.ok (c = '\\')

/-- `const PAIRS: [(char, char); 4]` — the symmetric bracket pairs. -/
def PAIRS : List (Char × Char) :=
  [('(', ')'), ('[', ']'), ('{', '}'), ('<', '>')]

/-- `pairs[&c]` lookup in the `HashMap` built from `PAIRS`. -/
def pairsGet (c : Char) : Option Char :=
  (PAIRS.find? (fun p => p.1 = c)).map (fun p => p.2)

/-- `pairs.contains_key(&c)`. -/
def pairsContains (c : Char) : Bool :=
  (pairsGet c).isSome

mutual

/-- `process_pairs` from `src/lib.rs`: look up the exit character for the
bracket just consumed (`get_current().unwrap()`, panicking if the input is
already exhausted), then run the consuming loop. -/
def process_pairs (fuel : Nat) (s : Scanner) : Option (Except Panic Scanner) :=
  match fuel with
  | 0 => none
  | fuel + 1 =>
    match s.get_current with
    | Except.error p => some (Except.error p)
    | Except.ok none => some (Except.error Panic.unwrapNone)
    | Except.ok (some cur) =>
      match pairsGet cur with
      | none => some (Except.error Panic.keyNotFound)
      | some exit => processPairsLoop exit fuel s

/-- The `loop` body of `process_pairs`: `<` is ignored, a bracket-table
key recurses, the exit character breaks, end of input breaks. -/
def processPairsLoop (exit : Char) (fuel : Nat) (s : Scanner) : Option (Except Panic Scanner) :=
  match fuel with
  | 0 => none
  | fuel + 1 =>
    match s.next with
    | (none, s1) => some (Except.ok s1)
    | (some c, s1) =>
      if c = '<' then
        processPairsLoop exit fuel s1
      else if pairsContains c then
        match process_pairs fuel s1 with
        | none => none
        | some (Except.error p) => some (Except.error p)
        | some (Except.ok s2) => processPairsLoop exit fuel s2
      else if c = exit then
        some (Except.ok s1)
      else
        processPairsLoop exit fuel s1

end

/-- The `loop` body of `process_quotes`: break on an unescaped repetition
of the quote character or at end of input. -/
def processQuotesLoop (quote : Char) (fuel : Nat) (s : Scanner) : Option (Except Panic Scanner) :=
  match fuel with
  | 0 => none
  | fuel + 1 =>
    match s.next with
    | (none, s1) => some (Except.ok s1)
    | (some c, s1) =>
      if c = quote then
        match s1.is_escaped with
        | Except.error p => some (Except.error p)
        | Except.ok true => processQuotesLoop quote fuel s1
        | Except.ok false => some (Except.ok s1)
      else
        processQuotesLoop quote fuel s1

/-- `process_quotes` from `src/lib.rs`: `get_current().unwrap()` fetches
the quote character just consumed, then the loop runs. -/
def process_quotes (fuel : Nat) (s : Scanner) : Option (Except Panic Scanner) :=
  match s.get_current with
  | Except.error p => some (Except.error p)
  | Except.ok none => some (Except.error Panic.unwrapNone)
  | Except.ok (some quote) => processQuotesLoop quote fuel s

/-- The `loop` of `analyse`: dispatch on the consumed character following
the Rust `match` arms in order (bracket key, unescaped `'`, unescaped
`"`, pipe, comma, anything else). An escaped quote falls through to the
catch-all arm, i.e. it is consumed as an ordinary character. -/
def analyseLoop (fuel : Nat) (s : Scanner) : Option (Except Panic Scanner) :=
  match fuel with
  | 0 => none
  | fuel + 1 =>
    match s.next with
    | (none, s1) => some (Except.ok s1)
    | (some c, s1) =>
      if pairsContains c then
        match process_pairs fuel s1 with
        | none => none
        | some (Except.error p) => some (Except.error p)
        | some (Except.ok s2) => analyseLoop fuel s2
      else if c = '\'' then
        match s1.is_escaped with
        | Except.error p => some (Except.error p)
        | Except.ok true => analyseLoop fuel s1
        | Except.ok false =>
          match process_quotes fuel s1 with
          | none => none
          | some (Except.error p) => some (Except.error p)
          | some (Except.ok s2) => analyseLoop fuel s2
      else if c = '"' then
        match s1.is_escaped with
        | Except.error p => some (Except.error p)
        | Except.ok true => analyseLoop fuel s1
        | Except.ok false =>
          match process_quotes fuel s1 with
          | none => none
          | some (Except.error p) => some (Except.error p)
          | some (Except.ok s2) => analyseLoop fuel s2
      else if c = '|' then
        match s1.is_pipe_valid with
        | Except.error p => some (Except.error p)
        | Except.ok false => some (Except.error Panic.misplacedPipe)
        | Except.ok true => analyseLoop fuel s1
      else if c = ',' then
        analyseLoop fuel (s1.save_attribute 1)
      else
        analyseLoop fuel s1

/-- `analyse` from `src/lib.rs`: run the driving loop over a fresh
scanner, flush the final attribute (`save_attribute(0)`) and materialize.
The fuel `2 * length + 2` is sufficient (each unit of fuel accompanies a
character consumption or a region entry, and entries are bounded by
consumptions). -/
def analyse (cs : List Char) : Option (Except Panic (List (List Char))) :=
  match analyseLoop (2 * cs.length + 2) (Scanner.new cs) with
  | none => none
  | some (Except.error p) => some (Except.error p)
  | some (Except.ok s) => some (Except.ok ((s.save_attribute 0).get_string_attributes))

/-- What a state-preserving pass of a region consumer guarantees: the
input, the recorded attributes and the mark are untouched, and the cursor
only moves forward, never past the end it started within. -/
def ScPres (s t : Scanner) : Prop :=
  t.char_string = s.char_string ∧ t.attributes = s.attributes ∧ t.mark = s.mark ∧
  s.index ≤ t.index ∧ t.index ≤ max s.index s.char_string.length

/-- The eleven characters the spec's "no brackets, quotes, or pipes"
restriction excludes (claim C7). -/
def isSpecialChar (c : Char) : Bool :=
  c = '(' || c = ')' || c = '[' || c = ']' || c = '{' || c = '}' ||
  c = '<' || c = '>' || c = '\'' || c = '"' || c = '|'

/-- Modelled from the spec: "split the input on every comma", keeping
empty pieces (the reference algorithm of claim C7, not code of the
repository). -/
def splitOnComma : List Char → List (List Char)
  | [] => [[]]
  | c :: rest =>
    if c = ',' then [] :: splitOnComma rest
    else
      match splitOnComma rest with
      | [] => [[c]]
      | piece :: pieces => (c :: piece) :: pieces

/-- Modelled from the spec: the naive algorithm of claim C7 — "split the
input on every comma and whitespace-trim each piece, preserving order
(including empty pieces from adjacent commas)". -/
def naiveSplit (cs : List Char) : List (List Char) :=
  (splitOnComma cs).map rustTrim

theorem Scanner.next_some {s s1 : Scanner} {c : Char}
    (h : s.next = (some c, s1)) :
    s.index < s.char_string.length ∧ s.char_string.get? s.index = some c ∧
      s1 = { s with index := s.index + 1 } := by
  unfold Scanner.next at h
  split at h
  · rename_i hlt
    injection h with h1 h2
    exact ⟨hlt, h1, h2.symm⟩
  · injection h with h1 _
    exact absurd h1 (by simp)

theorem Scanner.next_none {s s1 : Scanner}
    (h : s.next = (none, s1)) :
    s1 = s ∧ s.char_string.length ≤ s.index := by
  unfold Scanner.next at h
  split at h
  · rename_i hlt
    injection h with h1 _
    rw [List.get?_eq_none] at h1
    omega
  · rename_i hge
    injection h with _ h2
    exact ⟨h2.symm, by omega⟩

theorem ScPres.rfl {s : Scanner} : ScPres s s :=
  ⟨by rfl, by rfl, by rfl, Nat.le_refl _, Nat.le_max_left _ _⟩

theorem ScPres.trans {s t u : Scanner} (h1 : ScPres s t) (h2 : ScPres t u) :
    ScPres s u := by
  obtain ⟨a1, b1, c1, d1, e1⟩ := h1
  obtain ⟨a2, b2, c2, d2, e2⟩ := h2
  refine ⟨a2.trans a1, b2.trans b1, c2.trans c1, d1.trans d2, ?_⟩
  rw [a1] at e2
  have := Nat.le_max_right s.index s.char_string.length
  omega

theorem ScPres.of_next {s s1 : Scanner} {c : Char} (h : s.next = (some c, s1)) :
    ScPres s s1 := by
  obtain ⟨hlt, _, hs1⟩ := Scanner.next_some h
  subst hs1
  refine ⟨by rfl, by rfl, by rfl, Nat.le_succ _, ?_⟩
  exact le_trans hlt (Nat.le_max_right _ _)

theorem pairsPres (fuel : Nat) :
    (∀ s r, process_pairs fuel s = some r →
      ∀ s', r = Except.ok s' → ScPres s s') ∧
    (∀ exit s r, processPairsLoop exit fuel s = some r →
      ∀ s', r = Except.ok s' → ScPres s s') := by
  induction fuel with
  | zero =>
    constructor
    · intro s r h
      rw [process_pairs] at h
      exact absurd h (by simp)
    · intro exit s r h
      rw [processPairsLoop] at h
      exact absurd h (by simp)
  | succ fuel ih =>
    constructor
    · intro s r h s' hr
      rw [process_pairs] at h
      split at h
      · injection h with h1; subst h1; cases hr
      · injection h with h1; subst h1; cases hr
      · split at h
        · injection h with h1; subst h1; cases hr
        · exact ih.2 _ s r h s' hr
    · intro exit s r h s' hr
      rw [processPairsLoop] at h
      split at h
      · rename_i s1 hnext
        injection h with h1; subst h1
        injection hr with hr1; subst hr1
        obtain ⟨h1, _⟩ := Scanner.next_none hnext
        rw [h1]
        exact ScPres.rfl
      · rename_i c s1 hnext
        split at h
        · exact (ScPres.of_next hnext).trans (ih.2 exit s1 r h s' hr)
        · split at h
          · split at h
            · exact absurd h (by simp)
            · injection h with h1; subst h1; cases hr
            · rename_i s2 hrec
              exact ((ScPres.of_next hnext).trans
                (ih.1 s1 _ hrec s2 (by rfl))).trans (ih.2 exit s2 r h s' hr)
          · split at h
            · injection h with h1; subst h1
              injection hr with hr1; subst hr1
              exact ScPres.of_next hnext
            · exact (ScPres.of_next hnext).trans (ih.2 exit s1 r h s' hr)

theorem quotesPres (fuel : Nat) :
    ∀ quote s r, processQuotesLoop quote fuel s = some r →
      ∀ s', r = Except.ok s' → ScPres s s' := by
  induction fuel with
  | zero =>
    intro quote s r h
    rw [processQuotesLoop] at h
    exact absurd h (by simp)
  | succ fuel ih =>
    intro quote s r h s' hr
    rw [processQuotesLoop] at h
    split at h
    · rename_i s1 hnext
      injection h with h1; subst h1
      injection hr with hr1; subst hr1
      obtain ⟨h1, _⟩ := Scanner.next_none hnext
      rw [h1]
      exact ScPres.rfl
    · rename_i c s1 hnext
      split at h
      · split at h
        · injection h with h1; subst h1; cases hr
        · exact (ScPres.of_next hnext).trans (ih quote s1 r h s' hr)
        · injection h with h1; subst h1
          injection hr with hr1; subst hr1
          exact ScPres.of_next hnext
      · exact (ScPres.of_next hnext).trans (ih quote s1 r h s' hr)

theorem quotesEntryPres (fuel : Nat) :
    ∀ s r, process_quotes fuel s = some r →
      ∀ s', r = Except.ok s' → ScPres s s' := by
  intro s r h s' hr
  rw [process_quotes] at h
  split at h
  · injection h with h1; subst h1; cases hr
  · injection h with h1; subst h1; cases hr
  · exact quotesPres fuel _ s r h s' hr

theorem is_escaped_after_next {s s1 : Scanner} {c : Char}
    (h : s.next = (some c, s1)) :
    s1.is_escaped = Except.ok (decide (c = '\\')) := by
  obtain ⟨hlt, hget, hs1⟩ := Scanner.next_some h
  subst hs1
  have hget2 : s.char_string[s.index]? = some c := by
    simpa using hget
  unfold Scanner.is_escaped
  simp [hget2]

theorem quotesTotal (fuel : Nat) :
    ∀ quote s, s.index ≤ s.char_string.length →
      s.char_string.length - s.index < fuel →
      ∃ s', processQuotesLoop quote fuel s = some (Except.ok s') := by
  induction fuel with
  | zero =>
    intro quote s _ h
    omega
  | succ fuel ih =>
    intro quote s hle hfuel
    match hnext : s.next with
    | (none, s1) =>
      refine ⟨s1, ?_⟩
      rw [processQuotesLoop, hnext]
    | (some c, s1) =>
      obtain ⟨hlt, hget, hs1⟩ := Scanner.next_some hnext
      have hesc := is_escaped_after_next hnext
      have hidx : s1.index = s.index + 1 := by rw [hs1]
      have hcs : s1.char_string = s.char_string := by rw [hs1]
      by_cases hcq : c = quote
      · subst hcq
        by_cases hbs : c = '\\'
        · subst hbs
          obtain ⟨s', hs'⟩ := ih '\\' s1 (by rw [hcs, hidx]; omega) (by rw [hcs, hidx]; omega)
          refine ⟨s', ?_⟩
          rw [processQuotesLoop, hnext]
          simp [hesc, hs']
        · refine ⟨s1, ?_⟩
          rw [processQuotesLoop, hnext]
          simp [hesc, hbs]
      · obtain ⟨s', hs'⟩ := ih quote s1 (by rw [hcs, hidx]; omega) (by rw [hcs, hidx]; omega)
        refine ⟨s', ?_⟩
        rw [processQuotesLoop, hnext]
        simp [hcq, hs']

theorem analyseLoopOk (fuel : Nat) :
    ∀ s s', analyseLoop fuel s = some (Except.ok s') →
      s'.char_string = s.char_string ∧ s.char_string.length ≤ s'.index ∧
      ∃ d, s'.attributes = s.attributes ++ d ∧ (d = [] → s'.mark = s.mark) := by
  induction fuel with
  | zero =>
    intro s s' h
    rw [analyseLoop] at h
    exact absurd h (by simp)
  | succ fuel ih =>
    intro s s' h
    rw [analyseLoop] at h
    split at h
    · rename_i s1 hnext
      injection h with h1
      injection h1 with h1
      subst h1
      obtain ⟨h1, h2⟩ := Scanner.next_none hnext
      subst h1
      exact ⟨rfl, h2, [], by simp, fun _ => rfl⟩
    · rename_i c s1 hnext
      obtain ⟨hlt, hget, hs1⟩ := Scanner.next_some hnext
      subst hs1
      split at h
      · -- bracket-table key: process_pairs then continue
        split at h
        · exact absurd h (by simp)
        · injection h with h1; cases h1
        · rename_i s2 hrec
          obtain ⟨hcs2, hlen2, d, hd, hmark⟩ := ih s2 s' h
          obtain ⟨p1, p2, p3, _, _⟩ := (pairsPres fuel).1 _ _ hrec s2 (by rfl)
          refine ⟨by rw [hcs2, p1], by rw [← p1]; exact hlen2, d, by rw [hd, p2], ?_⟩
          intro hde
          rw [hmark hde, p3]
      · -- single quote or further
        split at h
        · -- single quote
          split at h
          · injection h with h1; cases h1
          · obtain ⟨hcs2, hlen2, d, hd, hmark⟩ :=
              ih { s with index := s.index + 1 } s' h
            exact ⟨hcs2, hlen2, d, hd, hmark⟩
          · split at h
            · exact absurd h (by simp)
            · injection h with h1; cases h1
            · rename_i s2 hrec
              obtain ⟨hcs2, hlen2, d, hd, hmark⟩ := ih s2 s' h
              obtain ⟨p1, p2, p3, _, _⟩ := quotesEntryPres fuel _ _ hrec s2 (by rfl)
              refine ⟨by rw [hcs2, p1], by rw [← p1]; exact hlen2, d, by rw [hd, p2], ?_⟩
              intro hde
              rw [hmark hde, p3]
        · split at h
          · -- double quote
            split at h
            · injection h with h1; cases h1
            · obtain ⟨hcs2, hlen2, d, hd, hmark⟩ := ih _ s' h
              exact ⟨hcs2, hlen2, d, hd, hmark⟩
            · split at h
              · exact absurd h (by simp)
              · injection h with h1; cases h1
              · rename_i s2 hrec
                obtain ⟨hcs2, hlen2, d, hd, hmark⟩ := ih s2 s' h
                obtain ⟨p1, p2, p3, _, _⟩ := quotesEntryPres fuel _ _ hrec s2 (by rfl)
                refine ⟨by rw [hcs2, p1], by rw [← p1]; exact hlen2, d, by rw [hd, p2], ?_⟩
                intro hde
                rw [hmark hde, p3]
          · split at h
            · -- pipe
              split at h
              · injection h with h1; cases h1
              · injection h with h1; cases h1
              · exact ih { s with index := s.index + 1 } s' h
            · split at h
              · -- comma: record an attribute, then continue
                obtain ⟨hcs2, hlen2, d, hd, hmark⟩ :=
                  ih (Scanner.save_attribute { s with index := s.index + 1 } 1) s' h
                refine ⟨hcs2, hlen2, (s.mark, s.index + 1 - 1) :: d, ?_, ?_⟩
                · rw [hd]
                  simp [Scanner.save_attribute]
                · intro hde
                  cases hde
              · -- ordinary character
                exact ih { s with index := s.index + 1 } s' h

theorem sliceStr_nil (cs : List Char) (a : Nat) : sliceStr cs a a = [] := by
  unfold sliceStr
  apply List.drop_eq_nil_of_le
  simp [List.length_take]

theorem sliceStr_snoc (cs : List Char) (a i : Nat) (c : Char) (hai : a ≤ i)
    (hc : cs.get? i = some c) :
    sliceStr cs a (i + 1) = sliceStr cs a i ++ [c] := by
  have hi : i < cs.length := by
    by_contra hcon
    rw [List.get?_eq_none.mpr (by omega)] at hc
    cases hc
  have hc2 : cs[i]? = some c := by simpa using hc
  unfold sliceStr
  rw [List.take_succ, hc2]
  rw [List.drop_append_eq_append_drop]
  have hlen : (cs.take i).length = i := by rw [List.length_take]; omega
  rw [hlen]
  have hz : a - i = 0 := by omega
  rw [hz]
  simp

theorem sliceStr_append_drop (cs : List Char) (a i : Nat) (hai : a ≤ i)
    (hi : i ≤ cs.length) :
    sliceStr cs a i ++ cs.drop i = cs.drop a := by
  unfold sliceStr
  conv_rhs => rw [← List.take_append_drop i cs]
  rw [List.drop_append_eq_append_drop]
  have hlen : (cs.take i).length = i := by rw [List.length_take]; omega
  rw [hlen]
  have hz : a - i = 0 := by omega
  rw [hz, List.drop_zero]

theorem splitOnComma_append (p q : List Char) (hp : ∀ c ∈ p, ¬ c = ',') :
    splitOnComma (p ++ ',' :: q) = p :: splitOnComma q := by
  induction p with
  | nil => simp [splitOnComma]
  | cons c t ih =>
    have hc : ¬ c = ',' := hp c (by simp)
    have ht : ∀ x ∈ t, ¬ x = ',' := fun x hx => hp x (by simp [hx])
    show splitOnComma (c :: (t ++ ',' :: q)) = (c :: t) :: splitOnComma q
    rw [splitOnComma, if_neg hc, ih ht]

theorem splitOnComma_no_comma (p : List Char) (hp : ∀ c ∈ p, ¬ c = ',') :
    splitOnComma p = [p] := by
  induction p with
  | nil => rfl
  | cons c t ih =>
    have hc : ¬ c = ',' := hp c (by simp)
    have ht : ∀ x ∈ t, ¬ x = ',' := fun x hx => hp x (by simp [hx])
    simp [splitOnComma, hc, ih ht]

theorem isSpecial_facts {c : Char} (h : isSpecialChar c = false) :
    ¬ c = '(' ∧ ¬ c = '[' ∧ ¬ c = '{' ∧ ¬ c = '<' ∧
    ¬ c = '\'' ∧ ¬ c = '"' ∧ ¬ c = '|' := by
  unfold isSpecialChar at h
  simp at h
  exact ⟨h.1.1.1.1.1.1.1.1.1.1, h.1.1.1.1.1.1.1.1.2, h.1.1.1.1.1.1.2,
    h.1.1.1.1.2, h.1.1.2, h.1.2, h.2⟩

theorem pairsContains_false {c : Char} (h : isSpecialChar c = false) :
    pairsContains c = false := by
  obtain ⟨h1, h2, h3, h4, _, _, _⟩ := isSpecial_facts h
  unfold pairsContains pairsGet PAIRS
  simp [List.find?, Ne.symm h1, Ne.symm h2, Ne.symm h3, Ne.symm h4]

theorem analyseLoopNoSpecial (fuel : Nat) :
    ∀ s : Scanner, s.char_string.length < s.index + fuel →
      s.mark ≤ s.index → s.index ≤ s.char_string.length →
      (∀ c ∈ s.char_string.drop s.index, isSpecialChar c = false) →
      (∀ c ∈ sliceStr s.char_string s.mark s.index, ¬ c = ',') →
      ∃ s', analyseLoop fuel s = some (Except.ok s') ∧
        (s'.save_attribute 0).get_string_attributes =
          s.attributes.map (fun ab => rustTrim (sliceStr s.char_string ab.1 ab.2)) ++
          (splitOnComma (s.char_string.drop s.mark)).map rustTrim := by
  induction fuel with
  | zero =>
    intro s hfuel _ _ _ _
    omega
  | succ fuel ih =>
    intro s hfuel hmi hil hsp hnc
    by_cases hlt : s.index < s.char_string.length
    · -- a character is consumed
      cases hgc : s.char_string.get? s.index with
      | none =>
        rw [List.get?_eq_none] at hgc
        omega
      | some c =>
        have hnext : s.next = (some c, { s with index := s.index + 1 }) := by
          unfold Scanner.next
          rw [if_pos hlt, hgc]
        have hgc2 : s.char_string[s.index]? = some c := by simpa using hgc
        have hcel : s.char_string[s.index] = c := by
          rw [List.getElem?_eq_getElem hlt] at hgc2
          injection hgc2
        have hdropc : s.char_string.drop s.index =
            c :: s.char_string.drop (s.index + 1) := by
          rw [List.drop_eq_getElem_cons hlt, hcel]
        have hspc : isSpecialChar c = false :=
          hsp c (by rw [hdropc]; exact List.mem_cons_self _ _)
        obtain ⟨g1, g2, g3, g4, g5, g6, g7⟩ := isSpecial_facts hspc
        have hpc : pairsContains c = false := pairsContains_false hspc
        have hsp2 : ∀ x ∈ s.char_string.drop (s.index + 1), isSpecialChar x = false := by
          intro x hx
          exact hsp x (by rw [hdropc]; exact List.mem_cons_of_mem _ hx)
        by_cases hcm : c = ','
        · subst hcm
          obtain ⟨s', hrun, hout⟩ :=
            ih (Scanner.save_attribute { s with index := s.index + 1 } 1)
              (by show s.char_string.length < s.index + 1 + fuel; omega)
              (by show s.index + 1 ≤ s.index + 1; omega)
              (by show s.index + 1 ≤ s.char_string.length; omega)
              (by
                show ∀ x ∈ s.char_string.drop (s.index + 1), isSpecialChar x = false
                exact hsp2)
              (by
                show ∀ x ∈ sliceStr s.char_string (s.index + 1) (s.index + 1), ¬ x = ','
                rw [sliceStr_nil]
                intro x hx
                cases hx)
          refine ⟨s', ?_, ?_⟩
          · simp only [analyseLoop, hnext]
            simp [hpc]
            exact hrun
          · rw [hout]
            have hdec : s.char_string.drop s.mark =
                sliceStr s.char_string s.mark s.index ++
                  ',' :: s.char_string.drop (s.index + 1) := by
              rw [← sliceStr_append_drop s.char_string s.mark s.index hmi
                (Nat.le_of_lt hlt), hdropc]
            rw [hdec, splitOnComma_append _ _ hnc]
            show (s.attributes ++ [(s.mark, s.index + 1 - 1)]).map _ ++ _ = _
            simp [Scanner.save_attribute, List.map_append]
        · obtain ⟨s', hrun, hout⟩ :=
            ih { s with index := s.index + 1 }
              (by show s.char_string.length < s.index + 1 + fuel; omega)
              (by show s.mark ≤ s.index + 1; omega)
              (by show s.index + 1 ≤ s.char_string.length; omega)
              (by
                show ∀ x ∈ s.char_string.drop (s.index + 1), isSpecialChar x = false
                exact hsp2)
              (by
                show ∀ x ∈ sliceStr s.char_string s.mark (s.index + 1), ¬ x = ','
                rw [sliceStr_snoc s.char_string s.mark s.index c hmi hgc]
                intro x hx
                rcases List.mem_append.mp hx with hx1 | hx2
                · exact hnc x hx1
                · rw [List.mem_singleton.mp hx2]
                  exact hcm)
          refine ⟨s', ?_, ?_⟩
          · simp only [analyseLoop, hnext]
            simp [hpc, g5, g6, g7, hcm]
            exact hrun
          · exact hout
    · -- end of input: the loop exits, the driver flushes
      have hnext : s.next = (none, s) := by
        unfold Scanner.next
        rw [if_neg hlt]
      refine ⟨s, ?_, ?_⟩
      · simp only [analyseLoop, hnext]
      · have hslice : sliceStr s.char_string s.mark s.index = s.char_string.drop s.mark := by
          unfold sliceStr
          rw [List.take_of_length_le (by omega)]
        rw [splitOnComma_no_comma (s.char_string.drop s.mark)
          (by rw [← hslice]; exact hnc)]
        show (s.save_attribute 0).get_string_attributes = _
        unfold Scanner.save_attribute Scanner.get_string_attributes
        simp [hslice]

theorem dropWhile_twice (p : Char → Bool) (l : List Char) :
    (l.dropWhile p).dropWhile p = l.dropWhile p := by
  induction l with
  | nil => rfl
  | cons c t ih =>
    rw [List.dropWhile_cons]
    by_cases hc : p c
    · rw [if_pos hc, ih]
    · rw [if_neg hc, List.dropWhile_cons, if_neg hc]

theorem rustTrim_idem (l : List Char) : rustTrim (rustTrim l) = rustTrim l := by
  by_cases hnil : rustTrim l = []
  · rw [hnil]
    rfl
  · have hB : (l.dropWhile rustIsWhitespace).reverse.dropWhile rustIsWhitespace ≠ [] := by
      intro hcon
      apply hnil
      unfold rustTrim
      rw [hcon]
      rfl
    have hArev : (l.dropWhile rustIsWhitespace).reverse ≠ [] := by
      intro hcon
      apply hB
      rw [hcon]
      rfl
    have hA : l.dropWhile rustIsWhitespace ≠ [] := by
      intro hcon
      apply hArev
      rw [hcon]
      rfl
    have hheadA : rustIsWhitespace ((l.dropWhile rustIsWhitespace).head hA) = false :=
      List.head_dropWhile_not _ _ hA
    have hgl : ((l.dropWhile rustIsWhitespace).reverse.dropWhile rustIsWhitespace).getLast hB
        = (l.dropWhile rustIsWhitespace).head hA := by
      rw [(List.dropWhile_suffix rustIsWhitespace).getLast hB]
      exact List.getLast_reverse hArev
    have hhead : rustIsWhitespace ((rustTrim l).head hnil) = false := by
      have h1 : (rustTrim l).head hnil =
          ((l.dropWhile rustIsWhitespace).reverse.dropWhile rustIsWhitespace).getLast hB := by
        exact List.head_reverse hnil
      rw [h1, hgl]
      exact hheadA
    have hself : (rustTrim l).dropWhile rustIsWhitespace = rustTrim l := by
      rw [List.dropWhile_eq_self_iff]
      intro hl
      rw [List.get_mk_zero]
      simp [hhead]
    conv_lhs => rw [rustTrim]
    rw [hself]
    have hrev : (rustTrim l).reverse =
        (l.dropWhile rustIsWhitespace).reverse.dropWhile rustIsWhitespace := by
      unfold rustTrim
      exact List.reverse_reverse _
    rw [hrev, dropWhile_twice]
    rfl

/-- C1 (code bug): the spec says a quote preceded by a backslash never
closes a quote region, so «"a\"b", c» splits into the two attributes
«"a\"b"» and «c».  In the code, `is_escaped` reads `char_string[index - 1]`,
which is the just-consumed quote itself — never the preceding backslash —
so it always answers `false` when consulted: the escaped quote closes the
region, the next quote opens a bogus region that swallows the comma, and
the whole input comes back as one attribute. -/
theorem C1_escaped_quote_closes_region :
    analyse ("\"a\\\"b\", c".toList) = some (Except.ok [("\"a\\\"b\", c".toList)]) ∧
    [("\"a\\\"b\", c".toList)] ≠ [("\"a\\\"b\"".toList), ("c".toList)] :=
  ⟨rfl, by decide⟩

/-- C2 counterexample: at top level a lone `<` DOES trigger bracket-region
consumption («<» is a key of the pairs table and `analyse` has no
skip-`<` arm), so «x < 8, y» yields the single attribute «x < 8, y», not
the two attributes the claim states. -/
theorem C2_counterexample :
    analyse ("x < 8, y".toList) = some (Except.ok [("x < 8, y".toList)]) ∧
    [("x < 8, y".toList)] ≠ [("x < 8".toList), ("y".toList)] :=
  ⟨rfl, by decide⟩

/-- C2 amended: inside a bracket region a consumed `<` is skipped outright
(the loop recurses on the rest without opening a nested region), so
«f(x < 8, y), z» splits into «f(x < 8, y)» and «z»; but at top level `<`
is a pairs-table key and does open a bracket region, so «x < 8, y» comes
back as the single attribute «x < 8, y». -/
theorem C2_lt_skipped_inside_brackets_only :
    (∀ (exit : Char) (fuel : Nat) (s s1 : Scanner), s.next = (some '<', s1) →
      processPairsLoop exit (fuel + 1) s = processPairsLoop exit fuel s1) ∧
    analyse ("f(x < 8, y), z".toList)
      = some (Except.ok [("f(x < 8, y)".toList), ("z".toList)]) ∧
    analyse ("x < 8, y".toList) = some (Except.ok [("x < 8, y".toList)]) := by
  refine ⟨?_, rfl, rfl⟩
  intro exit fuel s s1 hnext
  rw [processPairsLoop, hnext]
  simp

/-- C2 amended, witness: a concrete `<` step inside a bracket region. -/
theorem C2_lt_skipped_witness :
    processPairsLoop ')' 1 { char_string := ['<'], index := 0, attributes := [], mark := 0 }
      = processPairsLoop ')' 0 { char_string := ['<'], index := 1, attributes := [], mark := 0 } :=
  C2_lt_skipped_inside_brackets_only.1 ')' 0 _ _ (by rfl)

/-- C3 counterexample: on the one-character inputs «(» and «"» the region
consumer is entered with the input already exhausted, `get_current()`
returns `None` and the `.unwrap()` panics — `analyse` does NOT terminate
normally on every input. -/
theorem C3_counterexample :
    analyse ("(".toList) = some (Except.error Panic.unwrapNone) ∧
    analyse ("\"".toList) = some (Except.error Panic.unwrapNone) :=
  ⟨rfl, rfl⟩

/-- C3 amended: exhaustion inside a region body is tolerated — the quote
loop always returns normally at end of input (for any state with enough
fuel), and unterminated inputs such as «(a, b» and «"x» produce a
best-effort single attribute — but when the input's final character is
itself dispatched as a region opener, the consumer's initial
`get_current().unwrap()` finds `None` and `analyse` panics, as on «(»
and «"». -/
theorem C3_unterminated_tolerated_except_trailing_opener :
    (∀ (quote : Char) (fuel : Nat) (s : Scanner),
      s.index ≤ s.char_string.length →
      s.char_string.length - s.index < fuel →
      ∃ s', processQuotesLoop quote fuel s = some (Except.ok s')) ∧
    analyse ("(a, b".toList) = some (Except.ok [("(a, b".toList)]) ∧
    analyse ("\"x".toList) = some (Except.ok [("\"x".toList)]) ∧
    analyse ("(".toList) = some (Except.error Panic.unwrapNone) ∧
    analyse ("\"".toList) = some (Except.error Panic.unwrapNone) := by
  refine ⟨?_, rfl, rfl, rfl, rfl⟩
  intro quote fuel s h1 h2
  exact quotesTotal fuel quote s h1 h2

/-- C3 amended, witness: the quote loop returns normally on a concrete
state one character from the end. -/
theorem C3_unterminated_witness :
    ∃ s', processQuotesLoop '"' 3
        { char_string := ['"', 'a'], index := 1, attributes := [], mark := 0 }
      = some (Except.ok s') :=
  C3_unterminated_tolerated_except_trailing_opener.1 '"' 3 _ (by decide) (by decide)

/-- C4 (code bug): `is_pipe_valid` starts its backward whitespace scan at
`index - 1`, the position of the pipe itself — a non-whitespace character
— so it returns `true` whenever the pipe is not exactly at `mark`, and
the whitespace-skipping loop is dead code.  A pipe that is the first
non-whitespace token of an attribute but is preceded by whitespace is
accepted: analyse « |x|» succeeds with attribute «|x|» where the claim
requires the misplaced-pipe failure (which does fire on «|x|», pipe at
position 0 = mark). -/
theorem C4_pipe_whitespace_scan_dead :
    analyse (" |x|".toList) = some (Except.ok [("|x|".toList)]) ∧
    analyse ("|x|".toList) = some (Except.error Panic.misplacedPipe) :=
  ⟨rfl, rfl⟩

/-- C5: the bracket-region consumer records no attribute span and leaves
the mark untouched — a comma consumed inside a bracket region therefore
never produces an attribute boundary — and the claim's two examples
(nesting of mixed bracket kinds included) evaluate exactly as stated. -/
theorem C5_brackets_opaque_to_commas :
    (∀ (fuel : Nat) (s r : Scanner), process_pairs fuel s = some (Except.ok r) →
      r.attributes = s.attributes ∧ r.mark = s.mark) ∧
    analyse ("f(1, 2), \"ok\"".toList)
      = some (Except.ok [("f(1, 2)".toList), ("\"ok\"".toList)]) ∧
    analyse ("f([a, {b, c}]), d".toList)
      = some (Except.ok [("f([a, {b, c}])".toList), ("d".toList)]) := by
  refine ⟨?_, rfl, rfl⟩
  intro fuel s r h
  obtain ⟨_, h2, h3, _, _⟩ := (pairsPres fuel).1 s _ h r (by rfl)
  exact ⟨h2, h3⟩

/-- C5 witness: a concrete bracket region consumed without touching the
recorded attributes or the mark. -/
theorem C5_brackets_opaque_witness :
    ({ char_string := ['(', 'a', ')'], index := 3, attributes := [], mark := 0 } : Scanner).attributes
      = ({ char_string := ['(', 'a', ')'], index := 1, attributes := [], mark := 0 } : Scanner).attributes ∧
    ({ char_string := ['(', 'a', ')'], index := 3, attributes := [], mark := 0 } : Scanner).mark
      = ({ char_string := ['(', 'a', ')'], index := 1, attributes := [], mark := 0 } : Scanner).mark :=
  C5_brackets_opaque_to_commas.1 4 _ _ (by rfl)

/-- C6: the quote-region consumer records no attribute span and leaves
the mark untouched — a comma consumed inside a quote region never
produces an attribute boundary — and the claim's example evaluates
exactly as stated.  (Which quote closes a region is governed by
`is_escaped`; its defect is claim C1's subject.) -/
theorem C6_quotes_opaque_to_commas :
    (∀ (fuel : Nat) (s r : Scanner), process_quotes fuel s = some (Except.ok r) →
      r.attributes = s.attributes ∧ r.mark = s.mark) ∧
    analyse ("\"a, b\", c".toList)
      = some (Except.ok [("\"a, b\"".toList), ("c".toList)]) := by
  refine ⟨?_, rfl⟩
  intro fuel s r h
  obtain ⟨_, h2, h3, _, _⟩ := quotesEntryPres fuel s _ h r (by rfl)
  exact ⟨h2, h3⟩

/-- C6 witness: a concrete quote region consumed without touching the
recorded attributes or the mark. -/
theorem C6_quotes_opaque_witness :
    ({ char_string := ['"', 'a', '"'], index := 3, attributes := [], mark := 0 } : Scanner).attributes
      = ({ char_string := ['"', 'a', '"'], index := 1, attributes := [], mark := 0 } : Scanner).attributes ∧
    ({ char_string := ['"', 'a', '"'], index := 3, attributes := [], mark := 0 } : Scanner).mark
      = ({ char_string := ['"', 'a', '"'], index := 1, attributes := [], mark := 0 } : Scanner).mark :=
  C6_quotes_opaque_to_commas.1 3 _ _ (by rfl)

/-- C7: refinement — on any input containing none of the eleven special
characters, `analyse` returns exactly the naive algorithm's result: split
on every comma (keeping empty pieces) and whitespace-trim each piece, in
order. -/
theorem C7_no_specials_is_naive_split (cs : List Char)
    (h : ∀ c ∈ cs, isSpecialChar c = false) :
    analyse cs = some (Except.ok (naiveSplit cs)) := by
  unfold analyse
  obtain ⟨s', hrun, hout⟩ := analyseLoopNoSpecial (2 * cs.length + 2) (Scanner.new cs)
    (by show cs.length < 0 + (2 * cs.length + 2); omega)
    (by show (0 : Nat) ≤ 0; omega)
    (by show (0 : Nat) ≤ cs.length; omega)
    (by
      show ∀ c ∈ cs.drop 0, isSpecialChar c = false
      simpa using h)
    (by
      show ∀ c ∈ sliceStr cs 0 0, ¬ c = ','
      rw [sliceStr_nil]
      intro x hx
      cases hx)
  rw [hrun]
  show some (Except.ok ((s'.save_attribute 0).get_string_attributes))
    = some (Except.ok (naiveSplit cs))
  rw [hout]
  simp [naiveSplit, Scanner.new]

/-- C7 witness: a concrete special-free input, split naively. -/
theorem C7_no_specials_witness :
    (∀ c ∈ ("ab, , c".toList), isSpecialChar c = false) ∧
    analyse ("ab, , c".toList) = some (Except.ok (naiveSplit ("ab, , c".toList))) :=
  ⟨by decide, C7_no_specials_is_naive_split _ (by decide)⟩

/-- C8 counterexample: «a, ( » analyses to the attributes «a» and «(»,
and «(» contains no comma at all; yet re-running analyse on «(» panics
(unwrap of `None` in the bracket consumer) instead of returning «[(]» —
the claim's "re-splitting changes nothing and does not fail" is false. -/
theorem C8_counterexample :
    analyse ("a, ( ".toList) = some (Except.ok [("a".toList), ("(".toList)]) ∧
    analyse ("(".toList) = some (Except.error Panic.unwrapNone) ∧
    (some (Except.error Panic.unwrapNone)
      : Option (Except Panic (List (List Char))))
      ≠ some (Except.ok [("(".toList)]) :=
  ⟨rfl, rfl, by simp⟩

/-- C8 amended: every attribute `analyse` produces is already trimmed,
and whenever re-running `analyse` on a trimmed string succeeds without
recording any top-level comma (i.e. returns a single attribute), that
attribute is the input string itself.  The claim's further assertion that
the re-scan cannot fail is dropped: it can panic, e.g. on the produced
attributes «(» (trailing region opener) or «|x|» (leading pipe at the
mark). -/
theorem C8_resplit_identity_when_it_succeeds :
    (∀ (cs : List Char) atts, analyse cs = some (Except.ok atts) →
      ∀ a ∈ atts, rustTrim a = a) ∧
    (∀ (cs : List Char) t, rustTrim cs = cs →
      analyse cs = some (Except.ok [t]) → t = cs) := by
  constructor
  · intro cs atts h a ha
    unfold analyse at h
    split at h
    · exact absurd h (by simp)
    · injection h with h1; cases h1
    · injection h with h1
      injection h1 with h1
      subst h1
      unfold Scanner.get_string_attributes at ha
      rw [List.mem_map] at ha
      obtain ⟨ab, _, hab⟩ := ha
      rw [← hab, rustTrim_idem]
  · intro cs t htrim h
    unfold analyse at h
    split at h
    · exact absurd h (by simp)
    · injection h with h1; cases h1
    · rename_i s2 hrun
      injection h with h1
      injection h1 with h1
      obtain ⟨hcs, hlen, d, hd, hmark⟩ := analyseLoopOk _ _ _ hrun
      have hcs2 : s2.char_string = cs := hcs
      have hattrs : s2.attributes = [] := by
        have hlength : ((s2.save_attribute 0).get_string_attributes).length = 1 := by
          rw [h1]
          rfl
        unfold Scanner.save_attribute Scanner.get_string_attributes at hlength
        simp at hlength
        exact hlength
      have hd0 : d = [] := by
        have hd2 : s2.attributes = [] ++ d := hd
        rw [hattrs] at hd2
        simpa using hd2.symm
      have hm : s2.mark = 0 := hmark hd0
      have hlen2 : cs.length ≤ s2.index := hlen
      unfold Scanner.save_attribute Scanner.get_string_attributes at h1
      rw [hattrs, hm] at h1
      simp at h1
      have hslice : sliceStr s2.char_string 0 s2.index = cs := by
        unfold sliceStr
        rw [hcs2, List.take_of_length_le hlen2, List.drop_zero]
      rw [← h1, hslice, htrim]

/-- C8 amended, witness: «ab» is trimmed, re-analysing it succeeds with a
single attribute, and that attribute is «ab» itself. -/
theorem C8_resplit_identity_witness :
    rustTrim ("ab".toList) = "ab".toList ∧
    analyse ("ab".toList) = some (Except.ok [("ab".toList)]) ∧
    ("ab".toList : List Char) = "ab".toList :=
  ⟨by decide, by rfl,
    C8_resplit_identity_when_it_succeeds.2 ("ab".toList) ("ab".toList) (by decide) (by rfl)⟩

/-- C9 counterexample: on a scanner over nonempty input with position 0
(no character consumed yet), `get_current` does not return none — the
`usize` expression `index - 1` underflows and the indexing panics. -/
theorem C9_counterexample :
    Scanner.get_current
        { char_string := ['a'], index := 0, attributes := [], mark := 0 }
      = Except.error Panic.indexOutOfRange ∧
    (Except.error Panic.indexOutOfRange : Except Panic (Option Char))
      ≠ Except.ok none :=
  ⟨rfl, by simp⟩

/-- C9 amended: `get_current` returns the character at `position - 1`
(the one most recently returned by `advance`) whenever `1 ≤ position <
length`; it returns none when the input is exhausted (`length ≤
position`, which covers position 0 on empty input); but at position 0 on
NONEMPTY input it panics with an index underflow instead of returning
none.  (It never mutates the scanner: in this embedding it is a pure
function of the state.) -/
theorem C9_get_current_cases (s : Scanner) :
    (s.char_string.length ≤ s.index → s.get_current = Except.ok none) ∧
    (1 ≤ s.index → s.index < s.char_string.length →
      s.get_current = Except.ok (s.char_string.get? (s.index - 1))) ∧
    (s.index = 0 → 0 < s.char_string.length →
      s.get_current = Except.error Panic.indexOutOfRange) := by
  refine ⟨?_, ?_, ?_⟩
  · intro h
    unfold Scanner.get_current
    rw [if_neg (by omega)]
  · intro h1 h2
    unfold Scanner.get_current
    rw [if_pos h2]
    obtain ⟨i, hi⟩ : ∃ i, s.index = i + 1 := ⟨s.index - 1, by omega⟩
    rw [hi]
    simp
  · intro h1 h2
    unfold Scanner.get_current
    rw [if_pos (by omega), h1]

/-- C9 amended, witness: a concrete lookback after one step. -/
theorem C9_get_current_witness :
    Scanner.get_current
        { char_string := ['a', 'b'], index := 1, attributes := [], mark := 0 }
      = Except.ok (['a', 'b'].get? 0) :=
  (C9_get_current_cases _).2.1 (by decide) (by decide)

/-- C10: whenever `analyse` returns successfully, the attribute sequence
is nonempty — the unconditional final flush always records one span — and
the empty input yields exactly the one-element sequence holding the empty
string, so a caller's emptiness check can never fire. -/
theorem C10_output_never_empty :
    (∀ (cs : List Char) atts, analyse cs = some (Except.ok atts) → atts ≠ []) ∧
    analyse ([] : List Char) = some (Except.ok [[]]) := by
  refine ⟨?_, rfl⟩
  intro cs atts h
  unfold analyse at h
  split at h
  · exact absurd h (by simp)
  · injection h with h1; cases h1
  · injection h with h1
    injection h1 with h1
    subst h1
    unfold Scanner.save_attribute Scanner.get_string_attributes
    simp

/-- C10 witness: a concrete successful run with a nonempty output. -/
theorem C10_output_never_empty_witness :
    analyse ("a".toList) = some (Except.ok [("a".toList)]) ∧
    [("a".toList)] ≠ ([] : List (List Char)) :=
  ⟨by rfl, C10_output_never_empty.1 ("a".toList) [("a".toList)] (by rfl)⟩
